import Mathlib

/-!
Verification of the sym equation compiler (src/sym/src) against its
natural-language specification.  The relevant C functions are embedded
shallowly: pure decision logic becomes Lean functions, the stateful slot
allocator becomes explicit state passing, and fatal errors become
`Except String` results carrying the error message of the source.
-/

namespace SymCore

/-! ## Node kinds (nodes.h: Nodetype) -/

/-- Node kinds of the expression tree, as enumerated in the data model. -/
inductive Nodetype where
  | add | sub | mul | dvd | neg | pow | log | exp | lag | led
  | sum | prd | nam | num | equ | dom | lst | nul
deriving DecidableEq, Fintype

open Nodetype

/-! ## Parenthesization decisions (default.c: Default_spprint lines 88-155,
Default_show_node lines 489-554)

Both renderers open with a switch over the parent node kind that sets a
`parens` flag for the current node; the embeddings below reproduce those
switches exactly.  `none` corresponds to the `fatal_error` / `FAULT`
default branch (reached only for an `lst` parent). -/

/-- Parenthesization decision of the diagnostic renderer `Default_spprint`
(default.c lines 88-155): given the parent kind and the current node kind,
return the `parens` flag, or `none` for the fatal default branch. -/
def Default_spprint_parens (prevtype cur : Nodetype) : Option Bool :=
  match prevtype with
  | .nul | .add | .sub => some (cur == .neg)
  | .mul => some ((cur == .add || cur == .sub) || (cur == .dvd || cur == .neg))
  | .neg => some (!(cur == .nam || cur == .num || cur == .mul) &&
                  !(cur == .log || cur == .exp || cur == .pow) &&
                  !(cur == .sum || cur == .prd))
  | .dvd => some (!(cur == .nam || cur == .num || cur == .pow) &&
                  !(cur == .sum || cur == .prd) &&
                  !(cur == .log || cur == .exp))
  | .pow => some (!(cur == .nam || cur == .num || cur == .log || cur == .exp) &&
                  !(cur == .sum || cur == .prd))
  | .log | .exp | .lag | .led => some true
  | .equ | .sum | .prd | .dom => some false
  | .nam | .num => some false
  | .lst => none

/-- Parenthesization decision of the code renderer `Default_show_node`
(default.c lines 489-554): same switch, but the parent kinds `log`, `exp`,
`lag`, `led`, `sum`, `prd`, `nam`, `num`, `equ`, `dom` all fall through
with `parens = 0`, and the `neg`/`dvd`/`pow` cases additionally clear the
flag for `lag`/`led` children. -/
def Default_show_node_parens (prevtype cur : Nodetype) : Option Bool :=
  match prevtype with
  | .nul | .add | .sub => some (cur == .neg)
  | .mul => some ((cur == .add || cur == .sub) || (cur == .dvd || cur == .neg))
  | .neg => some (!(cur == .nam || cur == .num || cur == .mul) &&
                  !(cur == .log || cur == .exp || cur == .pow) &&
                  !(cur == .lag || cur == .led) &&
                  !(cur == .sum || cur == .prd))
  | .dvd => some (!(cur == .nam || cur == .num || cur == .pow) &&
                  !(cur == .sum || cur == .prd) &&
                  !(cur == .lag || cur == .led) &&
                  !(cur == .log || cur == .exp))
  | .pow => some (!(cur == .nam || cur == .num || cur == .log || cur == .exp) &&
                  !(cur == .sum || cur == .prd) &&
                  !(cur == .lag || cur == .led))
  | .log | .exp | .lag | .led => some false
  | .sum | .prd | .nam | .num | .equ | .dom => some false
  | .lst => none

/-- Modelled from the spec: the parenthesization table of section 4.1,
with `codeVariant` selecting the extra `lag`/`led` exclusions noted for the
code-rendering variant in the `neg`, `dvd` and `pow` rows.  The table's
`log,exp,lag,led` row says "always yes" for both variants, and any parent
kind outside the table is an internal-consistency failure (`none`). -/
def specTableParens (codeVariant : Bool) (p c : Nodetype) : Option Bool :=
  match p with
  | .nul | .add | .sub => some (c == .neg)
  | .mul => some (c == .add || c == .sub || c == .dvd || c == .neg)
  | .neg => some (!(c == .nam || c == .num || c == .mul || c == .log || c == .exp ||
                    c == .pow || c == .sum || c == .prd ||
                    (codeVariant && (c == .lag || c == .led))))
  | .dvd => some (!(c == .nam || c == .num || c == .pow || c == .sum || c == .prd ||
                    c == .log || c == .exp ||
                    (codeVariant && (c == .lag || c == .led))))
  | .pow => some (!(c == .nam || c == .num || c == .log || c == .exp ||
                    c == .sum || c == .prd ||
                    (codeVariant && (c == .lag || c == .led))))
  | .log | .exp | .lag | .led => some true
  | .sum | .prd | .equ | .dom => some false
  | .nam | .num => some false
  | .lst => none

/-! ## Vector slot allocator (python2.c: PYTHON_declare lines 1031-1128)

The simulation backend keeps a running length for each of the twelve named
vectors in `vecinfo` (indexed by the `#define` constants below) and, for
each declared variable, walks the six usage contexts of its `vlist` row,
reserving offsets.  The `my_*` synchronization variables start at `-1` for
every declaration. -/

/-- Vector id `Z1L` (python2.c `#define Z1L 1`). -/
def Z1L : Nat := 1

/-- Vector id `ZEL` (python2.c `#define ZEL 2`). -/
def ZEL : Nat := 2

/-- Vector id `J1L` (python2.c `#define J1L 3`). -/
def J1L : Nat := 3

/-- Vector id `X1L` (python2.c `#define X1L 4`). -/
def X1L : Nat := 4

/-- Vector id `Z1R` (python2.c `#define Z1R 5`). -/
def Z1R : Nat := 5

/-- Vector id `ZER` (python2.c `#define ZER 6`). -/
def ZER : Nat := 6

/-- Vector id `YJR` (python2.c `#define YJR 7`). -/
def YJR : Nat := 7

/-- Vector id `YXR` (python2.c `#define YXR 8`). -/
def YXR : Nat := 8

/-- Vector id `EXO` (python2.c `#define EXO 9`). -/
def EXO : Nat := 9

/-- Vector id `EXZ` (python2.c `#define EXZ 10`). -/
def EXZ : Nat := 10

/-- Vector id `PAR` (python2.c `#define PAR 11`). -/
def PAR : Nat := 11

/-- Vector id `X1R` (python2.c `#define X1R 12`). -/
def X1R : Nat := 12

/-- Vector id `UNK` (python2.c `#define UNK 13`), the first invalid id. -/
def UNK : Nat := 13

/-- Subscript origin for output array references
(python2.c `#define PYTHON_ORIGIN 0`). -/
def PYTHON_ORIGIN : Int := 0

/-- Allocator state during one `PYTHON_declare` call: the global `vecinfo`
running-length array plus the four local `my_*` synchronization variables,
which the source initializes to `-1` to allow error checks. -/
structure AllocState where
  vecinfo : Nat → Int
  my_Z1L : Int
  my_J1L : Int
  my_ZEL : Int
  my_X1L : Int

/-- Bump one named vector's running length by `count`, leaving the other
counters unchanged (the `vecinfo[vecid] += count` statement). -/
def updateVec (v : Nat → Int) (i : Nat) (count : Int) : Nat → Int :=
  fun x => if x = i then v x + count else v x

/-- One iteration of the context loop of `PYTHON_declare` (lines 1036-1128)
for a single `vecid`: returns the offset recorded in `newvar->vecoff[j]`
and the updated state, or the `FAULT` message.  A zero `vecid` records
offset 0 and touches nothing; a driver id (`Z1L`, `J1L`, `ZEL`, `X1L`)
records the vector's current length, saves it in `my_*` and advances the
length by `count`; a follower id reuses the saved driver offset without
advancing anything, faulting if the driver has not been allocated;
remaining ids drive themselves. -/
def allocStep (count : Int) (st : AllocState) (vecid : Nat) :
    Except String (Int × AllocState) :=
  if vecid = 0 then .ok (0, st)
  else if UNK ≤ vecid then .error "Unrecognized vector id in PYTHON_declare"
  else
    let start := st.vecinfo vecid
    if vecid = Z1L then
      .ok (start, { st with my_Z1L := start, vecinfo := updateVec st.vecinfo vecid count })
    else if vecid = Z1R then
      if st.my_Z1L < 0 then .error "Z1R without Z1L" else .ok (st.my_Z1L, st)
    else if vecid = J1L then
      .ok (start, { st with my_J1L := start, vecinfo := updateVec st.vecinfo vecid count })
    else if vecid = YJR then
      if st.my_J1L < 0 then .error "YJR without J1L" else .ok (st.my_J1L, st)
    else if vecid = ZEL then
      .ok (start, { st with my_ZEL := start, vecinfo := updateVec st.vecinfo vecid count })
    else if vecid = ZER ∨ vecid = EXZ then
      if st.my_ZEL < 0 then .error "ZER or EXZ without ZEL" else .ok (st.my_ZEL, st)
    else if vecid = X1L then
      .ok (start, { st with my_X1L := start, vecinfo := updateVec st.vecinfo vecid count })
    else if vecid = YXR ∨ vecid = X1R then
      if st.my_X1L < 0 then .error "YXR or X1R without X1L" else .ok (st.my_X1L, st)
    else
      .ok (start, { st with vecinfo := updateVec st.vecinfo vecid count })

/-- Walk a `vlist` row's six context vector ids left to right, collecting
the `vecoff` entries (the `for (j = 0; j < 6; j++)` loop). -/
def allocRow (count : Int) (st : AllocState) : List Nat → Except String (List Int × AllocState)
  | [] => .ok ([], st)
  | vecid :: rest => do
    let (off, st') ← allocStep count st vecid
    let (offs, st'') ← allocRow count st' rest
    .ok (off :: offs, st'')

/-- Fresh allocator state for one declaration: the current `vecinfo` with
all four `my_*` variables at `-1` (lines 1031-1034). -/
def initAlloc (v : Nat → Int) : AllocState :=
  { vecinfo := v, my_Z1L := -1, my_J1L := -1, my_ZEL := -1, my_X1L := -1 }

/-- Offset allocation for one declared symbol: run the context loop on its
`vlist` row starting from fresh `my_*` variables, returning the six
offsets and the updated `vecinfo`. -/
def allocVar (row : List Nat) (count : Int) (v : Nat → Int) :
    Except String (List Int × (Nat → Int)) :=
  (allocRow count (initAlloc v) row).map fun p => (p.1, p.2.vecinfo)

/-- Context vector ids of the `"end"` row of `vlist` (python2.c line 198). -/
def vlist_end : List Nat := [0, Z1L, 0, 0, Z1R, 0]

/-- Context vector ids of the `"ets"` row of `vlist` (python2.c line 199). -/
def vlist_ets : List Nat := [0, ZEL, 0, 0, ZER, EXZ]

/-- Context vector ids of the `"exo"` row of `vlist` (python2.c line 200). -/
def vlist_exo : List Nat := [0, 0, 0, 0, EXO, 0]

/-- Context vector ids of the `"cos"` row of `vlist` (python2.c line 201). -/
def vlist_cos : List Nat := [0, 0, J1L, 0, YJR, 0]

/-- Context vector ids of the `"sta"` row of `vlist` (python2.c line 202). -/
def vlist_sta : List Nat := [0, 0, X1L, 0, YXR, 0]

/-- Context vector ids of the `"stl"` row of `vlist` (python2.c line 203). -/
def vlist_stl : List Nat := [0, X1L, 0, YXR, X1R, 0]

/-- Context vector ids of the `"par"` row of `vlist` (python2.c line 204). -/
def vlist_par : List Nat := [0, 0, 0, 0, PAR, 0]

/-! ## End-of-run reconciliation (python2.c: PYTHON_end_file lines 853-910) -/

/-- View of one declared variable symbol as `PYTHON_end_file` queries it
through the external symbol table: its attribute tags (`symattrib`),
whether it is referenced anywhere (`isused`), and its element count
(`symsize`). -/
structure SymView where
  attribs : List String
  isUsed : Bool
  size : Int

/-- Total element count of declared variables carrying the `"end"`
attribute that are never used (python2.c lines 890-893). -/
def endogUnusedCount (vars : List SymView) : Int :=
  vars.foldl (fun acc s => if s.attribs.contains "end" && !s.isUsed then acc + s.size else acc) 0

/-- Outcome of `PYTHON_end_file`: the lines printed to the `info` stream
plus either normal completion or the fatal error message. -/
structure EndFileResult where
  infoLines : List String
  outcome : Except String Unit

/-- Fatal error message of the end-of-run reconciliation check
(python2.c line 906). -/
def reconciliationError : String :=
  "Counts of equations and endogenous variables do not match."

/-- Embedding of `PYTHON_end_file` (lines 853-910): compute the emitted
scalar-equation count (`MSGPROC_scalar - 1`), the total reserved length of
the four endogenous-context vectors, and the unused endogenous element
count; report all counts on the `info` stream; crash with
`reconciliationError` when `ecount` differs from `vcount - ucount`. -/
def PYTHON_end_file (msgprocScalar : Int) (vecinfo : Nat → Int) (vars : List SymView) :
    EndFileResult :=
  let ecount := msgprocScalar - 1
  let vcount := vecinfo Z1L + vecinfo ZEL + vecinfo J1L + vecinfo X1L - 4 * PYTHON_ORIGIN
  let ucount := endogUnusedCount vars
  let baseLines := [s!"Equation Count: {ecount}",
                    s!"Endogenous Variables, Used:   {vcount - ucount}",
                    s!"Endogenous Variables, Total:  {vcount}"]
  if ecount ≠ vcount - ucount then
    { infoLines := baseLines ++ ["Fatal Error:", reconciliationError],
      outcome := .error reconciliationError }
  else
    { infoLines := baseLines, outcome := .ok () }

/-! ## Scalar equation materialization (default.c: Default_write_file
lines 360-376)

The Cartesian iterator (`cart_build`/`cart_next`, cart.c) is an external
collaborator whose source is not part of this repository. -/

/-- Modelled from the spec: the Cartesian-product iterator
`cart_build`/`cart_next` of cart.c (not under src/), which by section 5
enumerates subscript tuples with the rightmost set varying fastest. -/
def cartProd : List (List String) → List (List String)
  | [] => [[]]
  | s :: rest => s.flatMap fun e => (cartProd rest).map fun t => e :: t

/-- Fault message for an equation-count mismatch in the scalar loop
(default.c line 372). -/
def eqnCountFault : String :=
  "Incorrect number of equations written. Using # with a time set?"

/-- Embedding of the scalar branch of `Default_write_file` (lines 362-373)
for one equation: starting from the precomputed expected count
`neqns = eqncount(eq)`, call `show_eq` once per Cartesian tuple
(collected in order in the result), decrementing `neqns` each time, and
`FAULT` when the final counter is nonzero. -/
def scalarEqLoop (expected : Int) (sets : List (List String)) :
    Except String (List (List String)) :=
  let tuples := cartProd sets
  let neqns := tuples.foldl (fun n _ => n - 1) expected
  if neqns ≠ 0 then .error eqnCountFault else .ok tuples

/-! ## Line wrapper (default.c: Default_wrap_write lines 223-273)

`PYTHON_wrap_write` (python2.c lines 1308-1358) is character-for-character
identical; this embedding covers both.  The while loop over `rest` is
embedded as recursion on the remaining character list. -/

/-- Character class of C `isspace` in the default locale: space, tab,
newline, vertical tab, form feed, carriage return. -/
def isspaceC (c : Char) : Bool :=
  c == ' ' || c == '\t' || c == '\n' || c == '\x0b' || c == '\x0c' || c == '\r'

/-- Safe wrap boundary test of the scan loop (lines 253-255): whitespace,
one of the six operator characters, or, when `commaok` is set, a comma. -/
def iswrapC (commaok : Bool) (c : Char) : Bool :=
  isspaceC c ||
  (c == '+' || c == '-' || c == '*' || c == '/' || c == '=' || c == '^') ||
  (commaok && c == ',')

/-- Backward scan of the wrap loop (lines 251-264): test positions `n`,
`n-1`, ..., `1` of `s` and return the first (largest) index holding a safe
boundary, or `none` when the scan reaches the start (`rest == end`).
Positions are in bounds at every call site, so the `getD` default is
never consulted. -/
def findWrap (s : List Char) (commaok : Bool) : Nat → Option Nat
  | 0 => none
  | n + 1 => if iswrapC commaok (s.getD (n + 1) 'Q') then some (n + 1)
             else findWrap s commaok n

/-- One emitted segment of the wrapped output.  `fits` is the final
segment printed verbatim (plus a newline when `addcr` is set); `nl` is a
segment ending at an embedded newline already present in the input
(printed with that newline); `wrapped` is a segment terminated by an
inserted break (printed with a newline and the three-space continuation
indent). -/
inductive Piece where
  | fits (s : List Char) (addcr : Bool)
  | nl (s : List Char)
  | wrapped (s : List Char)
deriving DecidableEq

/-- Characters a piece contributes to the output stream. -/
def pieceText : Piece → List Char
  | .fits s addcr => s ++ (if addcr then ['\n'] else [])
  | .nl s => s ++ ['\n']
  | .wrapped s => s ++ ('\n' :: ' ' :: ' ' :: ' ' :: [])

/-- Characters of the original input a piece accounts for (an `nl` piece
consumed its embedded newline; a `wrapped` piece ends just before the
break character, which starts the next piece). -/
def pieceOrig : Piece → List Char
  | .fits s _ => s
  | .nl s => s ++ ['\n']
  | .wrapped s => s

/-- Fatal error message of the wrapper (default.c line 267), without the
offending line that the C `fatal_error` appends. -/
def wrapFault : String := "Could not wrap long line"

/-- Loop body of `Default_wrap_write`, iterated on explicit fuel (every
iteration consumes at least one character of `rest`, so `rest.length + 1`
units of fuel always suffice; see `wrapGo_fuel`).  Each iteration: when
the remainder fits, emit it verbatim (with trailing newline when `addcr`);
when an embedded newline occurs within the first `L + 1` characters, emit
up to it and continue past it; otherwise scan backward from position `L`
for a safe boundary, emit the characters before it plus the
break-and-indent, and continue from the boundary character itself,
faulting when no boundary exists. -/
def wrapGo (L : Nat) (commaok addcr : Bool) : Nat → List Char → Except String (List Piece)
  | 0, _ => .error "fuel exhausted"
  | fuel + 1, rest =>
    if rest.length ≤ L then .ok [.fits rest addcr]
    else if (rest.takeWhile (fun c => c ≠ '\n')).length ≤ L then
      match wrapGo L commaok addcr fuel ((rest.dropWhile (fun c => c ≠ '\n')).tail) with
      | .ok ps => .ok (.nl (rest.takeWhile (fun c => c ≠ '\n')) :: ps)
      | .error e => .error e
    else
      match findWrap rest commaok L with
      | none => .error wrapFault
      | some k =>
        match wrapGo L commaok addcr fuel (rest.drop k) with
        | .ok ps => .ok (.wrapped (rest.take k) :: ps)
        | .error e => .error e

/-- Embedding of the while loop of `Default_wrap_write` (lines 231-270):
run the loop body with enough fuel to cover every iteration. -/
def wrapLoop (L : Nat) (commaok addcr : Bool) (rest : List Char) :
    Except String (List Piece) :=
  wrapGo L commaok addcr (rest.length + 1) rest

/-- Property claimed by the specification for the wrapper: every inserted
break falls immediately after a safe boundary character, i.e. each
`wrapped` segment ends with a safe character. -/
def breaksAfterSafe (commaok : Bool) : List Piece → Bool
  | [] => true
  | .wrapped s :: rest =>
    (match s.getLast? with
     | some c => iswrapC commaok c
     | none => false) && breaksAfterSafe commaok rest
  | _ :: rest => breaksAfterSafe commaok rest

/-- Property the wrapper actually has: every inserted break falls
immediately before a safe boundary character, i.e. the segment following
each `wrapped` segment starts with a safe character. -/
def breaksBeforeSafe (commaok : Bool) : List Piece → Bool
  | [] => true
  | [Piece.wrapped _] => false
  | .wrapped _ :: p :: rest =>
    (match (pieceOrig p).head? with
     | some c => iswrapC commaok c
     | none => false) && breaksBeforeSafe commaok (p :: rest)
  | _ :: rest => breaksBeforeSafe commaok rest

/-- Test that a piece list opens with a piece covering at least one input
character (used as an auxiliary invariant of the wrapper loop). -/
def headOrigNonempty : List Piece → Bool
  | [] => false
  | p :: _ => !(pieceOrig p).isEmpty

/-- Prefix test on character lists. -/
def isPrefixL : List Char → List Char → Bool
  | [], _ => true
  | _ :: _, [] => false
  | a :: as, b :: bs => a == b && isPrefixL as bs

/-- Substring occurrence test on character lists. -/
def containsSub (p : List Char) : List Char → Bool
  | [] => isPrefixL p []
  | c :: rest => isPrefixL p (c :: rest) || containsSub p rest

/-! ## Equation assembly (default.c: Default_show_eq lines 399-440;
python2.c PYTHON_show_eq and html.c HTML_show_eq share the logic) -/

/-- Events surrounding one rendered equation: the `begin_eqn` hook, the
text written to the code stream, and the `end_eqn` hook. -/
inductive EqEvent where
  | beginEqn
  | text (s : List Char)
  | endEqn
deriving DecidableEq

/-- Combined equation text (lines 410-413): `LHS - (RHS)` in normalized
mode, `LHS = RHS` otherwise. -/
def combineEq (normalized : Bool) (lstr rstr : List Char) : List Char :=
  if normalized then lstr ++ (" - (".toList) ++ rstr ++ (")".toList)
  else lstr ++ (" = ".toList) ++ rstr

/-- Split a character list at embedded newlines, the segmentation
performed by the `strchr(head, '\n')` loop of lines 430-435. -/
def splitNl : List Char → List (List Char)
  | [] => [[]]
  | c :: rest =>
    if c = '\n' then [] :: splitNl rest
    else
      match splitNl rest with
      | [] => [[c]]
      | p :: ps => (c :: p) :: ps

/-- Rejoin newline-split segments (inverse of `splitNl`). -/
def joinNl : List (List Char) → List Char
  | [] => []
  | [p] => p
  | p :: ps => p ++ '\n' :: joinNl ps

/-- Route the newline-split segments of an over-long equation through the
line wrapper (lines 430-435): every segment but the last is wrapped with
`addcr = 1`, the last with `addcr = 0`, and `commaok = 0` throughout. -/
def routeWrapped (L : Nat) : List (List Char) → Except String (List Char)
  | [] => .ok []
  | [p] =>
    match wrapLoop L false false p with
    | .ok ps => .ok (ps.map pieceText).flatten
    | .error e => .error e
  | p :: q :: ps =>
    match wrapLoop L false true p with
    | .ok a =>
      match routeWrapped L (q :: ps) with
      | .ok b => .ok ((a.map pieceText).flatten ++ b)
      | .error e => .error e
    | .error e => .error e

/-- Embedding of `Default_show_eq` (lines 399-440): combine the rendered
sides, and between the `begin_eqn` and `end_eqn` hooks emit the combined
text — verbatim when the configured line length is zero or the text fits,
otherwise split at embedded newlines and routed through the wrapper. -/
def Default_show_eq (lstr rstr : List Char) (normalized : Bool) (L : Nat) :
    Except String (List EqEvent) :=
  let all := combineEq normalized lstr rstr
  if L = 0 then .ok [.beginEqn, .text all, .endEqn]
  else if all.length ≤ L then .ok [.beginEqn, .text all, .endEqn]
  else
    match routeWrapped L (splitNl all) with
    | .ok b => .ok [.beginEqn, .text b, .endEqn]
    | .error e => .error e

/-! ## Driver orchestration (default.c: Default_write_file lines 280-391;
html.c: HTML_write_file lines 948-997)

`PYTHON_write_file` (python2.c lines 1365-1476) is identical to the
default driver.  The HTML driver differs in exactly one way: the
undeclared-symbol / time-domain skip (default.c lines 348-349) is
commented out (html.c lines 952-954).  Both are instances of
`writeFileEvents` below, differing in the `skipInvalid` flag. -/

/-- View of one equation as the driver queries it through the external
equation accessors: its position `id` in file order, the `hasundec` and
`istimeok` flags, its defined-over sets (as element lists) and its
precomputed scalar count `eqncount`. -/
structure EqnData where
  id : Nat
  hasundec : Bool
  istimeok : Bool
  eqsets : List (List String)
  eqncount : Int

/-- Events of one generation run, in emission order. -/
inductive GenEvent where
  | beginFile
  | declareSym (s : String)
  | beginBlock (e : Nat)
  | showEqEv (e : Nat) (sub : List String)
  | endFile
deriving DecidableEq

/-- Events produced for one non-skipped equation: `begin_block`, then in
vector mode a single `show_eq` with an empty subscript list, and in scalar
mode one `show_eq` per Cartesian tuple with the count check of
`scalarEqLoop`. -/
def eqBlockEvents (eqnVector : Bool) (e : EqnData) : Except String (List GenEvent) :=
  if eqnVector then .ok [.beginBlock e.id, .showEqEv e.id []]
  else
    match scalarEqLoop e.eqncount e.eqsets with
    | .ok tuples => .ok (.beginBlock e.id :: tuples.map fun t => .showEqEv e.id t)
    | .error msg => .error msg

/-- Equation loop of the driver: skip an equation referencing undeclared
symbols or failing the time-domain check when `skipInvalid` is set (the
default policy; the HTML driver runs with it cleared). -/
def eqLoopEvents (skipInvalid eqnVector : Bool) : List EqnData → Except String (List GenEvent)
  | [] => .ok []
  | e :: rest =>
    if skipInvalid && (e.hasundec || !e.istimeok) then eqLoopEvents skipInvalid eqnVector rest
    else do
      let b ← eqBlockEvents eqnVector e
      let r ← eqLoopEvents skipInvalid eqnVector rest
      .ok (b ++ r)

/-- Event trace of one full `write_file` run: `begin_file`, one `declare`
per symbol — all sets, then all parameters, then all variables, each group
in registration order — then the equation loop in file order, then
`end_file`.  A `FAULT` anywhere aborts the run. -/
def writeFileEvents (skipInvalid eqnVector : Bool)
    (sets pars vars : List String) (eqs : List EqnData) :
    Except String (List GenEvent) :=
  match eqLoopEvents skipInvalid eqnVector eqs with
  | .error e => .error e
  | .ok evs =>
    .ok (GenEvent.beginFile ::
          (sets.map GenEvent.declareSym ++ pars.map GenEvent.declareSym ++
           vars.map GenEvent.declareSym ++ evs ++ [GenEvent.endFile]))

/-- Driver instance of default.c (`Default_write_file`): the skip policy
of lines 348-349 is active. -/
def Default_write_file (eqnVector : Bool) (sets pars vars : List String)
    (eqs : List EqnData) : Except String (List GenEvent) :=
  writeFileEvents true eqnVector sets pars vars eqs

/-- Driver instance of html.c (`HTML_write_file`): identical except that
the skip of invalid equations is commented out (html.c lines 952-954). -/
def HTML_write_file (eqnVector : Bool) (sets pars vars : List String)
    (eqs : List EqnData) : Except String (List GenEvent) :=
  writeFileEvents false eqnVector sets pars vars eqs

/-- Equation ids of the `begin_block` events of a trace, in order. -/
def blocksOf (tr : List GenEvent) : List Nat :=
  tr.filterMap fun ev =>
    match ev with
    | .beginBlock i => some i
    | _ => none

/-- Test for a `declare` event. -/
def isDeclareEv : GenEvent → Bool
  | .declareSym _ => true
  | _ => false

/-- Test for an equation-phase event (`begin_block` or `show_eq`). -/
def isEqPhaseEv : GenEvent → Bool
  | .beginBlock _ => true
  | .showEqEv _ _ => true
  | _ => false

/-! ## Variable registry (python2.c: PYTHON_declare lines 1171-1224)

The simulation backend keeps its variables in a singly-linked list sorted
by `strcasecmp`; the embedding keeps the list of names. -/

/-- ASCII lower-casing as C `tolower` behaves in the default locale. -/
def asciiLower (c : Char) : Char :=
  if 'A' ≤ c ∧ c ≤ 'Z' then Char.ofNat (c.toNat + 32) else c

/-- Lexicographic three-way comparison of character lists, the behavior of
C `strcmp` on NUL-terminated strings. -/
def listCmp : List Char → List Char → Ordering
  | [], [] => .eq
  | [], _ :: _ => .lt
  | _ :: _, [] => .gt
  | a :: as, b :: bs =>
    if a < b then .lt else if b < a then .gt else listCmp as bs

/-- C `strcasecmp`: compare the lower-cased characters of the two names. -/
def strcasecmp (a b : String) : Ordering :=
  listCmp (a.toList.map asciiLower) (b.toList.map asciiLower)

/-- Fault message for a duplicate registration (python2.c lines 1188 and
1207). -/
def duplicateFault : String := "Multiple definitions of variable in PYTHON_declare"

/-- Walk of case 3 / case 4 of the insertion (lines 1203-1223): `cur` has
already compared strictly below `name`; insert `name` before the first
later entry comparing above it, fault on a case-insensitive equal, and
append after the last entry otherwise. -/
def insertAfter (name cur : String) : List String → Except String (List String)
  | [] => .ok [cur, name]
  | nxt :: rest =>
    match strcasecmp name nxt with
    | .eq => .error duplicateFault
    | .lt => .ok (cur :: name :: nxt :: rest)
    | .gt =>
      match insertAfter name nxt rest with
      | .ok l => .ok (cur :: l)
      | .error e => .error e

/-- Registry insertion of `PYTHON_declare` (lines 1171-1224): an empty
registry takes the name directly; otherwise compare with the head —
equality is a fatal duplicate, a smaller name is prepended, and a larger
name is inserted by the `insertAfter` walk. -/
def insertVar (name : String) : List String → Except String (List String)
  | [] => .ok [name]
  | cur :: rest =>
    match strcasecmp name cur with
    | .eq => .error duplicateFault
    | .lt => .ok (name :: cur :: rest)
    | .gt => insertAfter name cur rest

/-- Case-insensitive strictly-below relation on names. -/
def ciLt (a b : String) : Prop := strcasecmp a b = Ordering.lt

/-! ## Simulation-backend symbol rendering (python2.c: get_msgname
lines 452-547) -/

/-- Registry record of one declared variable as `get_msgname` consults it:
name, declared type, and the per-context vector ids and offsets reserved
by `PYTHON_declare`.  The subscript conversion (`sub_offset`) is an
external collaborator and is not modelled. -/
structure PyVar where
  str : String
  vtype : String
  vecid : List Nat
  vecoff : List Int
deriving DecidableEq

/-- Linear scan of the sorted registry (lines 464-476): stop at a
case-insensitive match, fault as soon as an entry compares above the
requested name or the list ends. -/
def findVar (name : String) : List PyVar → Except String PyVar
  | [] => .error "Name not in variable list in get_msgname"
  | v :: rest =>
    match strcasecmp name v.str with
    | .eq => .ok v
    | .lt => .error "Name not in variable list in get_msgname"
    | .gt => findVar name rest

/-- Output vector names installed by `PYTHON_begin_file`
(python2.c lines 823-836). -/
def vecnameStr (i : Nat) : String :=
  if i = Z1L then "z1l" else if i = ZEL then "zel"
  else if i = J1L then "j1l" else if i = X1L then "x1l"
  else if i = Z1R then "z1r" else if i = ZER then "zer"
  else if i = YJR then "yjr" else if i = YXR then "yxr"
  else if i = EXO then "exo" else if i = EXZ then "exz"
  else if i = PAR then "par" else if i = X1R then "x1r"
  else ""

/-- Rendering context of a symbol reference: the side of the equation and
the accumulated time shift `dt`. -/
structure RContext where
  lhs : Bool
  dt : Int

/-- Embedding of `get_msgname` (lines 452-547): find the variable, reject
an accumulated time shift outside `[-1, 1]`, select the usage context
`sel = 1 + dt + (lhs ? 0 : 3)`, reject a context whose vector id is zero,
and otherwise return the named vector and the reserved offset that
`sub_offset` (external) would add to the subscripts. -/
def get_msgname (registry : List PyVar) (name : String) (context : RContext) :
    Except String (String × Int) :=
  if registry = [] then .error "Variable list is blank in get_msgname"
  else
    match findVar name registry with
    | .error e => .error e
    | .ok v =>
      if context.dt < -1 then .error "lag(lag(var)) cannot be used with msgproc"
      else if 1 < context.dt then .error "lead(lead(var)) cannot be used with msgproc"
      else
        let sel := (1 + context.dt + if context.lhs then 0 else 3).toNat
        let vecid := v.vecid.getD sel 0
        if vecid = 0 then .error ("Invalid context for variable " ++ name)
        else .ok (vecnameStr vecid, v.vecoff.getD sel 0)

/-! ## Theorems -/

/-- C3 counterexample: the claim that the code-variant renderer always
parenthesizes the child when the parent kind is `log` (as the table of
section 4.1 prescribes) is false — `Default_show_node` leaves the
`parens` flag cleared for every child of a `log`, `exp`, `lag` or `led`
parent. -/
theorem C3_counterexample :
    Default_show_node_parens Nodetype.log Nodetype.add = some false ∧
    specTableParens true Nodetype.log Nodetype.add = some true := by
  decide

/-- C3 (amended): the diagnostic renderer `Default_spprint` matches the
parenthesization table of section 4.1 exactly on every
`(parent_kind, child_kind)` pair, and the code renderer
`Default_show_node` matches it except that for the parent kinds `log`,
`exp`, `lag`, `led` it never sets the parenthesization flag (their output
is enclosed by the function-call envelope or, for `lag`/`led`, rendered
transparently). -/
theorem C3_parenthesization_table :
    (∀ p c, Default_spprint_parens p c = specTableParens false p c) ∧
    (∀ p c, Default_show_node_parens p c =
      if p = Nodetype.log ∨ p = Nodetype.exp ∨ p = Nodetype.lag ∨ p = Nodetype.led
      then some false else specTableParens true p c) := by
  decide

/-- C1: within every driver/follower vector group of the slot allocator
(`Z1L` drives `Z1R`; `J1L` drives `YJR`; `ZEL` drives `ZER` and `EXZ`;
`X1L` drives `YXR` and `X1R`), the driver context reserves the named
vector's current running length as the variable's offset and advances
that length by the variable's element count, every follower context of
the same variable receives exactly the driver's offset while no counter
advances, and in particular the `"ets"` row gives its current-LHS,
current-RHS and lead-RHS contexts one shared offset; a follower context
whose driver has not been allocated is a fatal error. -/
theorem C1_driver_follower_sync (count : Int) (v : Nat → Int) (hv : ∀ i, 0 ≤ v i) :
    allocVar vlist_end count v = .ok ([0, v Z1L, 0, 0, v Z1L, 0], updateVec v Z1L count) ∧
    allocVar vlist_ets count v = .ok ([0, v ZEL, 0, 0, v ZEL, v ZEL], updateVec v ZEL count) ∧
    allocVar vlist_cos count v = .ok ([0, 0, v J1L, 0, v J1L, 0], updateVec v J1L count) ∧
    allocVar vlist_sta count v = .ok ([0, 0, v X1L, 0, v X1L, 0], updateVec v X1L count) ∧
    allocVar vlist_stl count v = .ok ([0, v X1L, 0, v X1L, v X1L, 0], updateVec v X1L count) ∧
    allocStep count (initAlloc v) Z1R = .error "Z1R without Z1L" ∧
    allocStep count (initAlloc v) YJR = .error "YJR without J1L" ∧
    allocStep count (initAlloc v) ZER = .error "ZER or EXZ without ZEL" ∧
    allocStep count (initAlloc v) EXZ = .error "ZER or EXZ without ZEL" ∧
    allocStep count (initAlloc v) YXR = .error "YXR or X1R without X1L" ∧
    allocStep count (initAlloc v) X1R = .error "YXR or X1R without X1L" := by
  have h1 : ¬ v 1 < 0 := not_lt.mpr (hv 1)
  have h2 : ¬ v 2 < 0 := not_lt.mpr (hv 2)
  have h3 : ¬ v 3 < 0 := not_lt.mpr (hv 3)
  have h4 : ¬ v 4 < 0 := not_lt.mpr (hv 4)
  refine ⟨?_, ?_, ?_, ?_, ?_, ?_, ?_, ?_, ?_, ?_, ?_⟩ <;>
    simp [allocVar, allocRow, allocStep, initAlloc, vlist_end, vlist_ets, vlist_cos,
      vlist_sta, vlist_stl, Z1L, ZEL, J1L, X1L, Z1R, ZER, YJR, YXR, EXO, EXZ, PAR, X1R,
      UNK, h1, h2, h3, h4, bind, Except.bind, Except.map]

/-- C1 witness: the theorem applied to a concrete element count and an
all-zero counter state. -/
theorem C1_driver_follower_sync_witness :
    (∀ i : Nat, 0 ≤ (fun _ : Nat => (0 : Int)) i) ∧
    allocVar vlist_ets 2 (fun _ => 0) =
      .ok ([0, 0, 0, 0, 0, 0], updateVec (fun _ => 0) ZEL 2) := by
  refine ⟨fun i => le_refl 0, ?_⟩
  exact (C1_driver_follower_sync 2 (fun _ => 0) (fun i => le_refl 0)).2.1

/-- C2 counterexample: the reconciliation failure is fatal, but its error
message is one fixed string — two runs whose counts differ (equation
counts 3 and 8 here) abort with the identical message, the message
contains no digits, so it reports neither count, and it does not contain
the word "time", so it carries no hint about time-domain handling. -/
theorem C2_counterexample :
    (PYTHON_end_file 4 (fun _ => 0) []).outcome = .error reconciliationError ∧
    (PYTHON_end_file 9 (fun _ => 0) []).outcome = (PYTHON_end_file 4 (fun _ => 0) []).outcome ∧
    reconciliationError.toList.all (fun c => !c.isDigit) = true ∧
    containsSub "time".toList reconciliationError.toList = false := by
  refine ⟨rfl, rfl, ?_, ?_⟩ <;> decide

/-- C2 (amended): at end of a simulation-code run, the total reserved
length across the endogenous-context named vectors (`Z1L`, `ZEL`, `J1L`,
`X1L`), minus the total element count of declared endogenous variables
that are never used, must equal the number of scalar equations actually
emitted; a mismatch aborts the run with the fixed fatal message
`reconciliationError` (which names the mismatch but not the counts and
contains no time-domain hint), while both counts are written to the
`info` stream. -/
theorem C2_reconciliation (ms : Int) (v : Nat → Int) (vars : List SymView) :
    ((PYTHON_end_file ms v vars).outcome = .ok () ↔
      ms - 1 = (v Z1L + v ZEL + v J1L + v X1L - 4 * PYTHON_ORIGIN) - endogUnusedCount vars) ∧
    (ms - 1 ≠ (v Z1L + v ZEL + v J1L + v X1L - 4 * PYTHON_ORIGIN) - endogUnusedCount vars →
      (PYTHON_end_file ms v vars).outcome = .error reconciliationError) ∧
    s!"Equation Count: {ms - 1}" ∈ (PYTHON_end_file ms v vars).infoLines ∧
    s!"Endogenous Variables, Total:  {v Z1L + v ZEL + v J1L + v X1L - 4 * PYTHON_ORIGIN}" ∈
      (PYTHON_end_file ms v vars).infoLines := by
  by_cases h : ms - 1 = (v Z1L + v ZEL + v J1L + v X1L - 4 * PYTHON_ORIGIN) - endogUnusedCount vars
  · refine ⟨?_, ?_, ?_, ?_⟩ <;> simp [PYTHON_end_file, h]
  · refine ⟨?_, ?_, ?_, ?_⟩ <;> simp [PYTHON_end_file, h]

/-- C2 witness: the amended theorem applied to a run with three emitted
equations and no reserved endogenous slots. -/
theorem C2_reconciliation_witness :
    ((4 : Int) - 1 ≠ ((fun _ : Nat => (0 : Int)) Z1L + (fun _ : Nat => (0 : Int)) ZEL +
        (fun _ : Nat => (0 : Int)) J1L + (fun _ : Nat => (0 : Int)) X1L - 4 * PYTHON_ORIGIN) -
        endogUnusedCount []) ∧
    (PYTHON_end_file 4 (fun _ => 0) []).outcome = .error reconciliationError := by
  have h : (4 : Int) - 1 ≠ ((fun _ : Nat => (0 : Int)) Z1L + (fun _ : Nat => (0 : Int)) ZEL +
      (fun _ : Nat => (0 : Int)) J1L + (fun _ : Nat => (0 : Int)) X1L - 4 * PYTHON_ORIGIN) -
      endogUnusedCount [] := by decide
  exact ⟨h, (C2_reconciliation 4 (fun _ => 0) []).2.1 h⟩

/-- Helper: decrementing an integer once per list element subtracts the
list's length. -/
theorem foldl_dec {α : Type} (l : List α) (n : Int) :
    l.foldl (fun m _ => m - 1) n = n - l.length := by
  induction l generalizing n with
  | nil => simp
  | cons a t ih => simp [List.foldl_cons, ih]; ring

/-- Helper: the Cartesian product has one tuple per combination — its
length is the product of the set cardinalities. -/
theorem cartProd_length (sets : List (List String)) :
    (cartProd sets).length = (sets.map List.length).prod := by
  induction sets with
  | nil => simp [cartProd]
  | cons s rest ih =>
    simp only [cartProd, List.map_cons, List.prod_cons, ← ih]
    induction s with
    | nil => simp
    | cons e t iht => simp [List.flatMap_cons, iht]; ring

/-- Helper: the scalar loop succeeds exactly when the precomputed count
matches the number of Cartesian tuples, returning all tuples in order. -/
theorem scalarEqLoop_eq (expected : Int) (sets : List (List String)) :
    scalarEqLoop expected sets =
      if expected = ((cartProd sets).length : Int) then .ok (cartProd sets)
      else .error eqnCountFault := by
  by_cases h : expected = ((cartProd sets).length : Int)
  · simp [scalarEqLoop, foldl_dec, h]
  · simp [scalarEqLoop, foldl_dec, h, sub_ne_zero.mpr h]

/-- C4: in scalar mode the materializer calls `show_eq` once per tuple of
the Cartesian product of the equation's defined-over sets with the
rightmost set varying fastest — sets `R = {US, EU}` and `G = {A, B, C}`
yield exactly the six tuples `(US,A), (US,B), (US,C), (EU,A), (EU,B),
(EU,C)` in that order — the number of tuples equals the product of the
set cardinalities, and a mismatch between the precomputed expected count
and the tuples actually iterated is the fatal `eqnCountFault`. -/
theorem C4_scalar_materialization :
    scalarEqLoop 6 [["US", "EU"], ["A", "B", "C"]] =
      .ok [["US", "A"], ["US", "B"], ["US", "C"], ["EU", "A"], ["EU", "B"], ["EU", "C"]] ∧
    (∀ sets, (cartProd sets).length = (sets.map List.length).prod) ∧
    (∀ (expected : Int) sets, expected = ((cartProd sets).length : Int) →
      scalarEqLoop expected sets = .ok (cartProd sets)) ∧
    (∀ (expected : Int) sets, expected ≠ ((cartProd sets).length : Int) →
      scalarEqLoop expected sets = .error eqnCountFault) := by
  refine ⟨rfl, cartProd_length, ?_, ?_⟩
  · intro expected sets h
    rw [scalarEqLoop_eq, if_pos h]
  · intro expected sets h
    rw [scalarEqLoop_eq, if_neg h]

/-- C4 witness: the theorem applied to the two-set example and to a
mismatching expected count. -/
theorem C4_scalar_materialization_witness :
    ((6 : Int) = ((cartProd [["US", "EU"], ["A", "B", "C"]]).length : Int) ∧
      scalarEqLoop 6 [["US", "EU"], ["A", "B", "C"]] =
        .ok (cartProd [["US", "EU"], ["A", "B", "C"]])) ∧
    ((5 : Int) ≠ ((cartProd [["US", "EU"], ["A", "B", "C"]]).length : Int) ∧
      scalarEqLoop 5 [["US", "EU"], ["A", "B", "C"]] = .error eqnCountFault) := by
  refine ⟨⟨by decide, ?_⟩, ⟨by decide, ?_⟩⟩
  · exact C4_scalar_materialization.2.2.1 6 [["US", "EU"], ["A", "B", "C"]] (by decide)
  · exact C4_scalar_materialization.2.2.2 5 [["US", "EU"], ["A", "B", "C"]] (by decide)

/-- Helper: every event produced for one equation block is an
equation-phase event, and its `begin_block` ids are exactly the
equation's id. -/
theorem eqBlockEvents_shape (eqnVector : Bool) (e : EqnData) (evs : List GenEvent)
    (h : eqBlockEvents eqnVector e = .ok evs) :
    (∀ ev ∈ evs, isEqPhaseEv ev = true) ∧ blocksOf evs = [e.id] := by
  unfold eqBlockEvents at h
  by_cases hv : eqnVector = true
  · rw [if_pos hv] at h
    cases h
    constructor
    · intro ev hev
      simp only [List.mem_cons, List.not_mem_nil, or_false] at hev
      rcases hev with rfl | rfl <;> simp [isEqPhaseEv]
    · rfl
  · rw [if_neg hv] at h
    cases hs : scalarEqLoop e.eqncount e.eqsets with
    | error msg => rw [hs] at h; cases h
    | ok tuples =>
      rw [hs] at h
      cases h
      constructor
      · intro ev hev
        rcases List.mem_cons.mp hev with h1 | h1
        · subst h1; simp [isEqPhaseEv]
        · obtain ⟨t, _, rfl⟩ := List.mem_map.mp h1
          simp [isEqPhaseEv]
      · simp only [blocksOf, List.filterMap_cons]
        simp [List.filterMap_map]

/-- Helper: the equation loop emits only equation-phase events, and its
`begin_block` ids are the ids of the non-skipped equations in file
order. -/
theorem eqLoopEvents_shape (skipInvalid eqnVector : Bool) :
    ∀ (eqs : List EqnData) (evs : List GenEvent),
      eqLoopEvents skipInvalid eqnVector eqs = .ok evs →
      (∀ ev ∈ evs, isEqPhaseEv ev = true) ∧
      blocksOf evs =
        (eqs.filter fun e => !(skipInvalid && (e.hasundec || !e.istimeok))).map EqnData.id := by
  intro eqs
  induction eqs with
  | nil =>
    intro evs h
    cases h
    exact ⟨fun ev hev => absurd hev (List.not_mem_nil ev), rfl⟩
  | cons e rest ih =>
    intro evs h
    rw [eqLoopEvents] at h
    by_cases hc : (skipInvalid && (e.hasundec || !e.istimeok)) = true
    · rw [if_pos hc] at h
      obtain ⟨h1, h2⟩ := ih evs h
      refine ⟨h1, ?_⟩
      rw [h2, List.filter_cons, if_neg (by simp [hc])]
    · rw [if_neg hc] at h
      cases hb : eqBlockEvents eqnVector e with
      | error msg => rw [hb] at h; cases h
      | ok b =>
        rw [hb] at h
        cases hr : eqLoopEvents skipInvalid eqnVector rest with
        | error msg => rw [hr] at h; simp only [bind, Except.bind] at h; cases h
        | ok r =>
          rw [hr] at h
          simp only [bind, Except.bind] at h
          cases h
          obtain ⟨hb1, hb2⟩ := eqBlockEvents_shape eqnVector e b hb
          obtain ⟨hr1, hr2⟩ := ih r hr
          refine ⟨?_, ?_⟩
          · intro ev hev
            rcases List.mem_append.mp hev with h1 | h1
            · exact hb1 ev h1
            · exact hr1 ev h1
          · rw [List.filter_cons,
              if_pos (by rw [Bool.not_eq_true] at hc; simp [hc]), List.map_cons]
            unfold blocksOf at hb2 hr2 ⊢
            rw [List.filterMap_append, hb2, hr2]
            rfl

/-- Helper: shape of a successful full driver run — `begin_file`, the
declarations of all sets, then parameters, then variables in registration
order, the equation-phase events, and `end_file`. -/
theorem writeFileEvents_shape (skipInvalid eqnVector : Bool)
    (sets pars vars : List String) (eqs : List EqnData) (tr : List GenEvent)
    (h : writeFileEvents skipInvalid eqnVector sets pars vars eqs = .ok tr) :
    ∃ evs, eqLoopEvents skipInvalid eqnVector eqs = .ok evs ∧
      tr = GenEvent.beginFile ::
        ((sets ++ pars ++ vars).map GenEvent.declareSym ++ evs ++ [GenEvent.endFile]) := by
  unfold writeFileEvents at h
  cases hl : eqLoopEvents skipInvalid eqnVector eqs with
  | error msg => rw [hl] at h; cases h
  | ok evs =>
    rw [hl] at h
    cases h
    exact ⟨evs, rfl, by simp⟩

/-- Helper: only the equation-phase part of a trace contributes
`begin_block` ids. -/
theorem blocksOf_shell (names : List String) (evs : List GenEvent) :
    blocksOf (GenEvent.beginFile ::
      (names.map GenEvent.declareSym ++ evs ++ [GenEvent.endFile])) = blocksOf evs := by
  induction names with
  | nil => simp [blocksOf, List.filterMap_append, List.filterMap_cons]
  | cons a t ih =>
    simp only [blocksOf, List.filterMap_cons, List.map_cons, List.cons_append,
      List.filterMap_append] at ih ⊢
    exact ih

/-- C9: every successful driver run invokes `declare` exactly once per
registered symbol — all sets first, then all parameters, then all
variables, each group in registration order — and all declarations come
after `begin_file` and before every equation-phase event. -/
theorem C9_declaration_order (skipInvalid eqnVector : Bool)
    (sets pars vars : List String) (eqs : List EqnData) (tr : List GenEvent)
    (h : writeFileEvents skipInvalid eqnVector sets pars vars eqs = .ok tr) :
    ∃ evs, tr = GenEvent.beginFile ::
        ((sets ++ pars ++ vars).map GenEvent.declareSym ++ evs ++ [GenEvent.endFile]) ∧
      (∀ ev ∈ evs, isEqPhaseEv ev = true) ∧
      (∀ ev ∈ evs, isDeclareEv ev = false) ∧
      (∀ s, tr.count (GenEvent.declareSym s) = (sets ++ pars ++ vars).count s) := by
  obtain ⟨evs, hl, rfl⟩ := writeFileEvents_shape skipInvalid eqnVector sets pars vars eqs tr h
  obtain ⟨hphase, _⟩ := eqLoopEvents_shape skipInvalid eqnVector eqs evs hl
  refine ⟨evs, rfl, hphase, ?_, ?_⟩
  · intro ev hev
    have := hphase ev hev
    cases ev <;> simp_all [isEqPhaseEv, isDeclareEv]
  · intro s
    have hzero : evs.count (GenEvent.declareSym s) = 0 := by
      rw [List.count_eq_zero]
      intro hmem
      have := hphase _ hmem
      simp [isEqPhaseEv] at this
    have hinj : Function.Injective GenEvent.declareSym := by
      intro a b hab
      cases hab
      rfl
    simp [List.count_cons, List.count_append, hzero, List.count_map_of_injective _ _ hinj]

/-- C9 witness: the theorem applied to a concrete one-symbol-per-group
run with a single valid scalar equation. -/
theorem C9_declaration_order_witness :
    (writeFileEvents true false ["s"] ["p"] ["v"]
        [{ id := 0, hasundec := false, istimeok := true, eqsets := [], eqncount := 1 }] =
      .ok [GenEvent.beginFile, GenEvent.declareSym "s", GenEvent.declareSym "p",
           GenEvent.declareSym "v", GenEvent.beginBlock 0, GenEvent.showEqEv 0 [],
           GenEvent.endFile]) ∧
    (∃ evs, [GenEvent.beginFile, GenEvent.declareSym "s", GenEvent.declareSym "p",
           GenEvent.declareSym "v", GenEvent.beginBlock 0, GenEvent.showEqEv 0 [],
           GenEvent.endFile] = GenEvent.beginFile ::
        ((["s"] ++ ["p"] ++ ["v"]).map GenEvent.declareSym ++ evs ++ [GenEvent.endFile]) ∧
      (∀ ev ∈ evs, isEqPhaseEv ev = true) ∧
      (∀ ev ∈ evs, isDeclareEv ev = false) ∧
      (∀ s, [GenEvent.beginFile, GenEvent.declareSym "s", GenEvent.declareSym "p",
           GenEvent.declareSym "v", GenEvent.beginBlock 0, GenEvent.showEqEv 0 [],
           GenEvent.endFile].count (GenEvent.declareSym s) =
        (["s"] ++ ["p"] ++ ["v"]).count s)) := by
  have hrun : writeFileEvents true false ["s"] ["p"] ["v"]
      [{ id := 0, hasundec := false, istimeok := true, eqsets := [], eqncount := 1 }] =
      .ok [GenEvent.beginFile, GenEvent.declareSym "s", GenEvent.declareSym "p",
           GenEvent.declareSym "v", GenEvent.beginBlock 0, GenEvent.showEqEv 0 [],
           GenEvent.endFile] := rfl
  exact ⟨hrun, C9_declaration_order true false ["s"] ["p"] ["v"] _ _ hrun⟩

/-- C6: the HTML driver renders every equation in file order
unconditionally — its `begin_block` events cover all equation ids even
when `hasundec` or a failed time check would make the default driver skip
them — while the default driver's blocks cover exactly the equations
passing both checks. -/
theorem C6_html_renders_all (eqnVector : Bool) (sets pars vars : List String)
    (eqs : List EqnData) :
    (∀ tr, HTML_write_file eqnVector sets pars vars eqs = .ok tr →
      blocksOf tr = eqs.map EqnData.id) ∧
    (∀ tr, Default_write_file eqnVector sets pars vars eqs = .ok tr →
      blocksOf tr = (eqs.filter fun e => !e.hasundec && e.istimeok).map EqnData.id) := by
  have hwrap : ∀ (skipInvalid : Bool) (tr : List GenEvent),
      writeFileEvents skipInvalid eqnVector sets pars vars eqs = .ok tr →
      blocksOf tr =
        (eqs.filter fun e => !(skipInvalid && (e.hasundec || !e.istimeok))).map EqnData.id := by
    intro skipInvalid tr h
    obtain ⟨evs, hl, rfl⟩ := writeFileEvents_shape skipInvalid eqnVector sets pars vars eqs tr h
    obtain ⟨_, hblocks⟩ := eqLoopEvents_shape skipInvalid eqnVector eqs evs hl
    rw [blocksOf_shell, hblocks]
  constructor
  · intro tr h
    have := hwrap false tr h
    simpa using this
  · intro tr h
    have := hwrap true tr h
    rw [this]
    congr 1
    apply List.filter_congr
    intro e _
    cases he : e.hasundec <;> cases ht : e.istimeok <;> simp

/-- C6 witness: an equation with undeclared symbols is rendered by the
HTML driver and skipped by the default driver. -/
theorem C6_html_renders_all_witness :
    (HTML_write_file false [] [] []
        [{ id := 7, hasundec := true, istimeok := true, eqsets := [], eqncount := 1 }] =
      .ok [GenEvent.beginFile, GenEvent.beginBlock 7, GenEvent.showEqEv 7 [],
           GenEvent.endFile] ∧
      blocksOf [GenEvent.beginFile, GenEvent.beginBlock 7, GenEvent.showEqEv 7 [],
           GenEvent.endFile] =
        [{ id := 7, hasundec := true, istimeok := true, eqsets := ([] : List (List String)),
           eqncount := 1 }].map EqnData.id) ∧
    (Default_write_file false [] [] []
        [{ id := 7, hasundec := true, istimeok := true, eqsets := [], eqncount := 1 }] =
      .ok [GenEvent.beginFile, GenEvent.endFile] ∧
      blocksOf [GenEvent.beginFile, GenEvent.endFile] =
        ([{ id := 7, hasundec := true, istimeok := true, eqsets := ([] : List (List String)),
            eqncount := 1 }].filter fun e => !e.hasundec && e.istimeok).map EqnData.id) := by
  have h1 : HTML_write_file false [] [] []
      [{ id := 7, hasundec := true, istimeok := true, eqsets := [], eqncount := 1 }] =
      .ok [GenEvent.beginFile, GenEvent.beginBlock 7, GenEvent.showEqEv 7 [],
           GenEvent.endFile] := rfl
  have h2 : Default_write_file false [] [] []
      [{ id := 7, hasundec := true, istimeok := true, eqsets := [], eqncount := 1 }] =
      .ok [GenEvent.beginFile, GenEvent.endFile] := rfl
  exact ⟨⟨h1, (C6_html_renders_all false [] [] [] _).1 _ h1⟩,
         ⟨h2, (C6_html_renders_all false [] [] [] _).2 _ h2⟩⟩

/-- C10: a symbol reference the simulation backend renders successfully
has an accumulated time shift `dt` in `{-1, 0, 1}`; for a registered
variable, a reference with `dt < -1` (nested lag) or `dt > 1` (nested
lead) is the corresponding fatal error regardless of the variable's
vector table — the check fires before any vector id or offset of the
variable is consulted. -/
theorem C10_time_shift_range :
    (∀ (registry : List PyVar) (name : String) (context : RContext) r,
      get_msgname registry name context = .ok r → -1 ≤ context.dt ∧ context.dt ≤ 1) ∧
    (∀ (registry : List PyVar) (name : String) (context : RContext) (v : PyVar),
      findVar name registry = .ok v → context.dt < -1 →
      get_msgname registry name context = .error "lag(lag(var)) cannot be used with msgproc") ∧
    (∀ (registry : List PyVar) (name : String) (context : RContext) (v : PyVar),
      findVar name registry = .ok v → 1 < context.dt →
      get_msgname registry name context = .error "lead(lead(var)) cannot be used with msgproc") := by
  refine ⟨?_, ?_, ?_⟩
  · intro registry name context r h
    unfold get_msgname at h
    by_cases hr : registry = []
    · rw [if_pos hr] at h; cases h
    · rw [if_neg hr] at h
      cases hf : findVar name registry with
      | error e => rw [hf] at h; cases h
      | ok v =>
        rw [hf] at h
        dsimp only at h
        by_cases h1 : context.dt < -1
        · rw [if_pos h1] at h; cases h
        · rw [if_neg h1] at h
          by_cases h2 : 1 < context.dt
          · rw [if_pos h2] at h; cases h
          · omega
  · intro registry name context v hf hdt
    have hr : registry ≠ [] := by
      intro he
      rw [he] at hf
      cases hf
    unfold get_msgname
    rw [if_neg hr, hf]
    dsimp only
    rw [if_pos hdt]
  · intro registry name context v hf hdt
    have hr : registry ≠ [] := by
      intro he
      rw [he] at hf
      cases hf
    unfold get_msgname
    rw [if_neg hr, hf]
    dsimp only
    rw [if_neg (show ¬ context.dt < -1 by omega), if_pos hdt]

/-- C10 witness: a doubly-led reference to a registered endogenous
variable is rejected with the nested-lead error. -/
theorem C10_time_shift_range_witness :
    (findVar "x" [⟨"x", "end", [0, Z1L, 0, 0, Z1R, 0], [0, 0, 0, 0, 0, 0]⟩] =
      .ok ⟨"x", "end", [0, Z1L, 0, 0, Z1R, 0], [0, 0, 0, 0, 0, 0]⟩) ∧
    (1 : Int) < (2 : Int) ∧
    get_msgname [⟨"x", "end", [0, Z1L, 0, 0, Z1R, 0], [0, 0, 0, 0, 0, 0]⟩] "x" ⟨false, 2⟩ =
      .error "lead(lead(var)) cannot be used with msgproc" := by
  refine ⟨rfl, by decide, ?_⟩
  exact C10_time_shift_range.2.2 _ "x" ⟨false, 2⟩ _ rfl (by decide)

/-- Helper: a remainder that fits within the line length is emitted
verbatim by the wrapper. -/
theorem wrapLoop_fits (L : Nat) (commaok addcr : Bool) (p : List Char)
    (h : p.length ≤ L) : wrapLoop L commaok addcr p = .ok [.fits p addcr] := by
  unfold wrapLoop wrapGo
  rw [if_pos h]

/-- Helper: newline splitting never produces an empty piece list. -/
theorem splitNl_ne_nil (s : List Char) : splitNl s ≠ [] := by
  cases s with
  | nil => simp [splitNl]
  | cons c rest =>
    unfold splitNl
    by_cases hc : c = '\n'
    · simp [hc]
    · rw [if_neg hc]
      cases h : splitNl rest <;> simp

/-- Helper: every newline-split piece is at most as long as the input. -/
theorem splitNl_length_le (s : List Char) :
    ∀ p ∈ splitNl s, p.length ≤ s.length := by
  induction s with
  | nil => intro p hp; simp [splitNl] at hp; simp [hp]
  | cons c rest ih =>
    intro p hp
    unfold splitNl at hp
    by_cases hc : c = '\n'
    · rw [if_pos hc] at hp
      rcases List.mem_cons.mp hp with rfl | hmem
      · simp
      · have := ih p hmem
        simp
        omega
    · rw [if_neg hc] at hp
      cases h : splitNl rest with
      | nil => exact absurd h (splitNl_ne_nil rest)
      | cons q qs =>
        rw [h] at hp
        rcases List.mem_cons.mp hp with rfl | hmem
        · have := ih q (by rw [h]; exact List.mem_cons_self q qs)
          simp
          omega
        · have := ih p (by rw [h]; exact List.mem_cons_of_mem q hmem)
          simp
          omega

/-- Helper: rejoining the newline-split pieces recovers the input. -/
theorem joinNl_splitNl (s : List Char) : joinNl (splitNl s) = s := by
  induction s with
  | nil => rfl
  | cons c rest ih =>
    unfold splitNl
    by_cases hc : c = '\n'
    · rw [if_pos hc]
      subst hc
      cases h : splitNl rest with
      | nil => exact absurd h (splitNl_ne_nil rest)
      | cons q qs =>
        calc joinNl ([] :: q :: qs) = '\n' :: joinNl (q :: qs) := by simp [joinNl]
          _ = '\n' :: joinNl (splitNl rest) := by rw [h]
          _ = '\n' :: rest := by rw [ih]
    · rw [if_neg hc]
      cases h : splitNl rest with
      | nil => exact absurd h (splitNl_ne_nil rest)
      | cons q qs =>
        have : joinNl ((c :: q) :: qs) = c :: joinNl (q :: qs) := by
          cases qs <;> simp [joinNl]
        rw [this, ← h, ih]

/-- Helper: when every piece fits within the line length, routing through
the wrapper reproduces the pieces joined by newlines. -/
theorem routeWrapped_short (L : Nat) :
    ∀ pcs : List (List Char), (∀ p ∈ pcs, p.length ≤ L) →
      routeWrapped L pcs = .ok (joinNl pcs) := by
  intro pcs
  induction pcs with
  | nil => intro _; rfl
  | cons p ps ih =>
    intro h
    cases ps with
    | nil =>
      simp only [routeWrapped]
      rw [wrapLoop_fits L false false p (h p (List.mem_cons_self p []))]
      simp [pieceText, joinNl]
    | cons q qs =>
      simp only [routeWrapped]
      rw [wrapLoop_fits L false true p (h p (List.mem_cons_self p (q :: qs)))]
      rw [ih (fun r hr => h r (List.mem_cons_of_mem p hr))]
      simp [pieceText, joinNl]

/-- C8: `show_eq` combines the rendered sides as `LHS = RHS`, or as
`LHS - (RHS)` in normalized mode; the combined text is emitted between
`begin_eqn` and `end_eqn`, verbatim when the configured maximum line
width is zero, and — extensionally — through the line wrapper (applied to
each newline-separated segment) whenever the width is positive. -/
theorem C8_show_eq (lstr rstr : List Char) (normalized : Bool) (L : Nat) :
    (combineEq true lstr rstr = lstr ++ " - (".toList ++ rstr ++ ")".toList ∧
     combineEq false lstr rstr = lstr ++ " = ".toList ++ rstr) ∧
    Default_show_eq lstr rstr normalized 0 =
      .ok [.beginEqn, .text (combineEq normalized lstr rstr), .endEqn] ∧
    (0 < L →
      Default_show_eq lstr rstr normalized L =
        match routeWrapped L (splitNl (combineEq normalized lstr rstr)) with
        | .ok b => .ok [.beginEqn, .text b, .endEqn]
        | .error e => .error e) := by
  refine ⟨⟨by simp [combineEq], by simp [combineEq]⟩, ?_, ?_⟩
  · unfold Default_show_eq
    rw [if_pos rfl]
  · intro hL
    unfold Default_show_eq
    rw [if_neg (by omega)]
    by_cases hfit : (combineEq normalized lstr rstr).length ≤ L
    · rw [if_pos hfit]
      rw [routeWrapped_short L (splitNl (combineEq normalized lstr rstr))
        (fun p hp => le_trans (splitNl_length_le _ p hp) hfit)]
      rw [joinNl_splitNl]
    · rw [if_neg hfit]

/-- C8 witness: the theorem applied to concrete one-character sides and a
positive width. -/
theorem C8_show_eq_witness :
    0 < 5 ∧
    Default_show_eq ['a'] ['b'] false 5 =
      match routeWrapped 5 (splitNl (combineEq false ['a'] ['b'])) with
      | .ok b => .ok [.beginEqn, .text b, .endEqn]
      | .error e => .error e :=
  ⟨by decide, (C8_show_eq ['a'] ['b'] false 5).2.2 (by decide)⟩

/-- Helper: three-way list comparison is antisymmetric under swapping its
arguments. -/
theorem listCmp_swap : ∀ a b : List Char, listCmp b a = (listCmp a b).swap := by
  intro a
  induction a with
  | nil => intro b; cases b <;> rfl
  | cons x as ih =>
    intro b
    cases b with
    | nil => rfl
    | cons y bs =>
      by_cases hxy : x < y
      · have hyx : ¬ y < x := asymm hxy
        simp [listCmp, hxy, hyx, Ordering.swap]
      · by_cases hyx : y < x
        · simp [listCmp, hxy, hyx, Ordering.swap]
        · simp [listCmp, hxy, hyx, ih bs]

/-- Helper: the strictly-below result of the three-way list comparison is
transitive. -/
theorem listCmp_lt_trans :
    ∀ a b c : List Char, listCmp a b = .lt → listCmp b c = .lt → listCmp a c = .lt := by
  intro a
  induction a with
  | nil =>
    intro b c h1 h2
    cases b with
    | nil => cases h1
    | cons y bs =>
      cases c with
      | nil => cases h2
      | cons z cs => rfl
  | cons x as ih =>
    intro b c h1 h2
    cases b with
    | nil => cases h1
    | cons y bs =>
      cases c with
      | nil => cases h2
      | cons z cs =>
        simp only [listCmp] at h1 h2 ⊢
        by_cases hxy : x < y
        · rw [if_pos hxy] at h1
          by_cases hyz : y < z
          · rw [if_pos (lt_trans hxy hyz)]
          · by_cases hzy : z < y
            · rw [if_neg hyz, if_pos hzy] at h2
              cases h2
            · have : y = z := le_antisymm (not_lt.mp hzy) (not_lt.mp hyz)
              subst this
              rw [if_pos hxy]
        · by_cases hyx : y < x
          · rw [if_neg hxy, if_pos hyx] at h1
            cases h1
          · have hxyeq : x = y := le_antisymm (not_lt.mp hyx) (not_lt.mp hxy)
            subst hxyeq
            rw [if_neg hxy, if_neg hyx] at h1
            by_cases hyz : x < z
            · rw [if_pos hyz]
            · by_cases hzy : z < x
              · rw [if_neg hyz, if_pos hzy] at h2
                cases h2
              · have : x = z := le_antisymm (not_lt.mp hzy) (not_lt.mp hyz)
                subst this
                rw [if_neg hyz, if_neg hyz] at h2 ⊢
                exact ih bs cs h1 h2

/-- Helper: a name comparing above another compares below it with the
arguments swapped. -/
theorem strcasecmp_gt_lt {a b : String} (h : strcasecmp a b = .gt) :
    strcasecmp b a = .lt := by
  unfold strcasecmp at *
  rw [listCmp_swap, h]
  rfl

/-- Helper: the case-insensitive strictly-below order on names is
transitive. -/
theorem ciLt_trans : Transitive ciLt := by
  intro a b c h1 h2
  exact listCmp_lt_trans _ _ _ h1 h2

instance : IsTrans String ciLt := ⟨fun _ _ _ hab hbc => ciLt_trans hab hbc⟩

/-- Helper: a name strictly below one element of a sorted registry is
strictly below everything after it, so it can match nothing there. -/
theorem ciLt_all_tail {name cur : String} {rest : List String}
    (hlt : strcasecmp name cur = .lt) (hch : List.Chain' ciLt (cur :: rest)) :
    ∀ x ∈ rest, strcasecmp name x ≠ .eq := by
  intro x hx heq
  have hpw := (List.chain'_iff_pairwise.mp hch)
  have hcx : ciLt cur x := (List.pairwise_cons.mp hpw).1 x hx
  have : strcasecmp name x = .lt := listCmp_lt_trans _ _ _ hlt hcx
  rw [this] at heq
  cases heq

/-- Helper: full specification of the case 3 / case 4 insertion walk on a
sorted registry with the head already strictly below the new name. -/
theorem insertAfter_spec (name : String) :
    ∀ (rest : List String) (cur : String), strcasecmp name cur = .gt →
      List.Chain' ciLt (cur :: rest) →
      ((∃ x ∈ rest, strcasecmp name x = .eq) →
        insertAfter name cur rest = .error duplicateFault) ∧
      ((∀ x ∈ rest, strcasecmp name x ≠ .eq) →
        ∃ t, insertAfter name cur rest = .ok (cur :: t) ∧
          List.Chain' ciLt (cur :: t) ∧ (cur :: t).Perm (name :: cur :: rest)) := by
  intro rest
  induction rest with
  | nil =>
    intro cur hgt hch
    constructor
    · rintro ⟨x, hx, _⟩
      cases hx
    · intro _
      refine ⟨[name], rfl, ?_, List.Perm.swap name cur []⟩
      exact List.chain'_cons.mpr ⟨strcasecmp_gt_lt hgt, List.chain'_singleton name⟩
  | cons nxt rest' ih =>
    intro cur hgt hch
    have hch' : List.Chain' ciLt (nxt :: rest') := (List.chain'_cons.mp hch).2
    have hcn : ciLt cur nxt := (List.chain'_cons.mp hch).1
    cases hc : strcasecmp name nxt with
    | eq =>
      constructor
      · intro _
        unfold insertAfter
        rw [hc]
      · intro hno
        exact absurd hc (hno nxt (List.mem_cons_self nxt rest'))
    | lt =>
      constructor
      · rintro ⟨x, hx, heq⟩
        rcases List.mem_cons.mp hx with rfl | hx'
        · rw [hc] at heq; cases heq
        · exact absurd heq (ciLt_all_tail hc hch' x hx')
      · intro _
        refine ⟨name :: nxt :: rest', ?_, ?_, ?_⟩
        · unfold insertAfter
          rw [hc]
        · exact List.chain'_cons.mpr ⟨strcasecmp_gt_lt hgt,
            List.chain'_cons.mpr ⟨hc, hch'⟩⟩
        · exact List.Perm.swap name cur (nxt :: rest')
    | gt =>
      obtain ⟨herr, hok⟩ := ih nxt hc hch'
      constructor
      · rintro ⟨x, hx, heq⟩
        rcases List.mem_cons.mp hx with rfl | hx'
        · rw [hc] at heq; cases heq
        · unfold insertAfter
          rw [hc, herr ⟨x, hx', heq⟩]
      · intro hno
        obtain ⟨t, ht, htch, htperm⟩ := hok fun x hx =>
          hno x (List.mem_cons_of_mem nxt hx)
        refine ⟨nxt :: t, ?_, ?_, ?_⟩
        · unfold insertAfter
          rw [hc, ht]
        · exact List.chain'_cons.mpr ⟨hcn, htch⟩
        · exact List.Perm.trans (List.Perm.cons cur htperm)
            (List.Perm.swap name cur (nxt :: rest'))

/-- C7: the simulation backend's registry preserves across every
insertion the invariant that names are case-insensitively unique and kept
in case-insensitive sorted order — inserting a fresh name into a sorted
registry succeeds with a sorted registry holding exactly the old names
plus the new one, while inserting a name that case-insensitively equals a
registered one is the fatal duplicate error; and in the driver the whole
declaration phase precedes every equation-phase event, so the failure
occurs before any equation is processed. -/
theorem C7_registry_invariant (name : String) (l : List String)
    (hsorted : List.Chain' ciLt l) :
    ((∃ x ∈ l, strcasecmp name x = .eq) → insertVar name l = .error duplicateFault) ∧
    ((∀ x ∈ l, strcasecmp name x ≠ .eq) →
      ∃ l', insertVar name l = .ok l' ∧ List.Chain' ciLt l' ∧ l'.Perm (name :: l)) ∧
    (∀ (eqnVector : Bool) (sets pars vars : List String) (eqs : List EqnData)
        (tr : List GenEvent),
      writeFileEvents true eqnVector sets pars vars eqs = .ok tr →
      ∃ evs, tr = GenEvent.beginFile ::
          ((sets ++ pars ++ vars).map GenEvent.declareSym ++ evs ++ [GenEvent.endFile]) ∧
        ∀ ev ∈ evs, isDeclareEv ev = false) := by
  refine ⟨?_, ?_, ?_⟩
  · rintro ⟨x, hx, heq⟩
    cases l with
    | nil => cases hx
    | cons cur rest =>
      simp only [insertVar]
      cases hc : strcasecmp name cur with
      | eq => rfl
      | lt =>
        exfalso
        rcases List.mem_cons.mp hx with rfl | hx'
        · rw [hc] at heq; cases heq
        · exact (ciLt_all_tail hc hsorted x hx') heq
      | gt =>
        rcases List.mem_cons.mp hx with rfl | hx'
        · rw [hc] at heq; cases heq
        · exact (insertAfter_spec name rest cur hc hsorted).1 ⟨x, hx', heq⟩
  · intro hno
    cases l with
    | nil => exact ⟨[name], rfl, List.chain'_singleton name, List.Perm.refl _⟩
    | cons cur rest =>
      cases hc : strcasecmp name cur with
      | eq => exact absurd hc (hno cur (List.mem_cons_self cur rest))
      | lt =>
        refine ⟨name :: cur :: rest, ?_, ?_, List.Perm.refl _⟩
        · simp only [insertVar]
          rw [hc]
        · exact List.chain'_cons.mpr ⟨hc, hsorted⟩
      | gt =>
        obtain ⟨t, ht, htch, htperm⟩ := (insertAfter_spec name rest cur hc hsorted).2
          (fun x hx => hno x (List.mem_cons_of_mem cur hx))
        refine ⟨cur :: t, ?_, htch, htperm⟩
        simp only [insertVar]
        rw [hc]
        exact ht
  · intro eqnVector sets pars vars eqs tr htr
    obtain ⟨evs, hl, rfl⟩ := writeFileEvents_shape true eqnVector sets pars vars eqs tr htr
    obtain ⟨hphase, _⟩ := eqLoopEvents_shape true eqnVector eqs evs hl
    refine ⟨evs, rfl, fun ev hev => ?_⟩
    have := hphase ev hev
    cases ev <;> simp_all [isEqPhaseEv, isDeclareEv]

/-- C7 witness: inserting `"BETA"` into the sorted registry
`["Alpha", "beta"]` is the fatal duplicate error. -/
theorem C7_registry_invariant_witness :
    List.Chain' ciLt ["Alpha", "beta"] ∧
    (∃ x ∈ ["Alpha", "beta"], strcasecmp "BETA" x = Ordering.eq) ∧
    insertVar "BETA" ["Alpha", "beta"] = .error duplicateFault := by
  have hs : List.Chain' ciLt ["Alpha", "beta"] := by
    refine List.chain'_cons.mpr ⟨?_, List.chain'_singleton _⟩
    show strcasecmp "Alpha" "beta" = Ordering.lt
    decide
  have hmem : ∃ x ∈ ["Alpha", "beta"], strcasecmp "BETA" x = Ordering.eq :=
    ⟨"beta", by simp, by decide⟩
  exact ⟨hs, hmem, (C7_registry_invariant "BETA" ["Alpha", "beta"] hs).1 hmem⟩

/-- Helper: a boundary index found by the backward scan is positive and
at most the scan start. -/
theorem findWrap_bounds {s : List Char} {commaok : Bool} :
    ∀ {n k : Nat}, findWrap s commaok n = some k → 1 ≤ k ∧ k ≤ n := by
  intro n
  induction n with
  | zero => intro k h; simp [findWrap] at h
  | succ m ih =>
    intro k h
    rw [findWrap] at h
    by_cases hc : iswrapC commaok (s.getD (m + 1) 'Q') = true
    · rw [if_pos hc] at h
      cases h
      omega
    · rw [if_neg hc] at h
      have := ih h
      omega

/-- Helper: the character at a found boundary index is a safe wrap
boundary. -/
theorem findWrap_safe {s : List Char} {commaok : Bool} :
    ∀ {n k : Nat}, findWrap s commaok n = some k →
      iswrapC commaok (s.getD k 'Q') = true := by
  intro n
  induction n with
  | zero => intro k h; simp [findWrap] at h
  | succ m ih =>
    intro k h
    rw [findWrap] at h
    by_cases hc : iswrapC commaok (s.getD (m + 1) 'Q') = true
    · rw [if_pos hc] at h
      cases h
      exact hc
    · rw [if_neg hc] at h
      exact ih h

/-- Helper: the head of a dropped list is the element at the drop
index. -/
theorem drop_head_getD {l : List Char} :
    ∀ {k : Nat}, k < l.length → (l.drop k).head? = some (l.getD k 'Q') := by
  induction l with
  | nil => intro k h; simp at h
  | cons a t ih =>
    intro k h
    cases k with
    | zero => simp
    | succ m =>
      simp only [List.drop_succ_cons, List.getD_cons_succ]
      exact ih (by simpa using h)

/-- Helper: invariant of the wrapper loop on success — the segments cover
the input exactly, every inserted break falls immediately before a safe
boundary character, and a nonempty input yields a leading segment
covering at least one character. -/
theorem wrapGo_inv (L : Nat) (commaok addcr : Bool) :
    ∀ (fuel : Nat) (rest : List Char) (ps : List Piece),
      wrapGo L commaok addcr fuel rest = .ok ps →
      (ps.map pieceOrig).flatten = rest ∧ breaksBeforeSafe commaok ps = true ∧
      (rest ≠ [] → headOrigNonempty ps = true) := by
  intro fuel
  induction fuel with
  | zero => intro rest ps h; cases h
  | succ m ih =>
    intro rest ps h
    rw [wrapGo] at h
    by_cases h1 : rest.length ≤ L
    · rw [if_pos h1] at h
      cases h
      refine ⟨by simp [pieceOrig], rfl, ?_⟩
      intro hne
      simp [headOrigNonempty, pieceOrig, List.isEmpty_iff, hne]
    · rw [if_neg h1] at h
      by_cases h2 : (rest.takeWhile (fun c => c ≠ '\n')).length ≤ L
      · rw [if_pos h2] at h
        cases hrec : wrapGo L commaok addcr m ((rest.dropWhile (fun c => c ≠ '\n')).tail) with
        | error e => rw [hrec] at h; cases h
        | ok ps' =>
          rw [hrec] at h
          cases h
          obtain ⟨hflat, hbrk, _⟩ := ih _ _ hrec
          have hdwne : rest.dropWhile (fun c => c ≠ '\n') ≠ [] := by
            intro hcon
            have htw : (rest.takeWhile (fun c => c ≠ '\n')).length = rest.length := by
              have : rest.takeWhile (fun c => c ≠ '\n') ++
                  rest.dropWhile (fun c => c ≠ '\n') = rest :=
                List.takeWhile_append_dropWhile _ _
              rw [hcon, List.append_nil] at this
              rw [this]
            omega
          have hdwhead : ∀ c ∈ (rest.dropWhile (fun c => c ≠ '\n')).head?, c = '\n' := by
            intro c hc
            cases hdw : rest.dropWhile (fun c => c ≠ '\n') with
            | nil => exact absurd hdw hdwne
            | cons a t =>
              rw [hdw] at hc
              simp only [List.head?_cons, Option.mem_def, Option.some.injEq] at hc
              subst hc
              have := List.head_dropWhile_not (fun c => c ≠ '\n') rest
                (by rw [hdw]; simp)
              simp only [hdw, List.head_cons] at this
              simpa using this
          have hdweq : rest.dropWhile (fun c => c ≠ '\n') =
              '\n' :: (rest.dropWhile (fun c => c ≠ '\n')).tail := by
            cases hdw : rest.dropWhile (fun c => c ≠ '\n') with
            | nil => exact absurd hdw hdwne
            | cons a t =>
              have : a = '\n' := hdwhead a (by rw [hdw]; simp)
              rw [this]
              simp
          refine ⟨?_, ?_, ?_⟩
          · simp only [List.map_cons, List.flatten_cons, pieceOrig, hflat]
            rw [List.append_assoc, List.singleton_append, ← hdweq,
              List.takeWhile_append_dropWhile]
          · cases ps' <;> simp [breaksBeforeSafe, hbrk]
          · intro _
            simp [headOrigNonempty, pieceOrig]
      · rw [if_neg h2] at h
        cases hf : findWrap rest commaok L with
        | none => rw [hf] at h; dsimp only at h; cases h
        | some k =>
          rw [hf] at h
          dsimp only at h
          cases hrec : wrapGo L commaok addcr m (rest.drop k) with
          | error e => rw [hrec] at h; cases h
          | ok ps' =>
            rw [hrec] at h
            cases h
            obtain ⟨hflat, hbrk, hhead⟩ := ih _ _ hrec
            have hk := findWrap_bounds hf
            have hklen : k < rest.length := lt_of_le_of_lt hk.2 (not_le.mp h1)
            have hdropne : rest.drop k ≠ [] := by
              intro hcon
              have := congrArg List.length hcon
              simp at this
              omega
            refine ⟨?_, ?_, ?_⟩
            · simp only [List.map_cons, List.flatten_cons, pieceOrig, hflat]
              exact List.take_append_drop k rest
            · cases ps' with
              | nil => exact absurd (hhead hdropne) (by simp [headOrigNonempty])
              | cons p t =>
                have hpne : pieceOrig p ≠ [] := by
                  have := hhead hdropne
                  simpa [headOrigNonempty, List.isEmpty_iff] using this
                have hfl : pieceOrig p ++ (t.map pieceOrig).flatten = rest.drop k := by
                  simpa using hflat
                have hhd : (pieceOrig p).head? = (rest.drop k).head? := by
                  rw [← hfl]
                  cases hpo : pieceOrig p with
                  | nil => exact absurd hpo hpne
                  | cons a b => simp
                have hdk : (rest.drop k).head? = some (rest.getD k 'Q') :=
                  drop_head_getD hklen
                have hsafe : iswrapC commaok (rest.getD k 'Q') = true := findWrap_safe hf
                simp only [breaksBeforeSafe, hhd, hdk, hsafe, Bool.true_and]
                exact hbrk
            · intro _
              have htk : (rest.take k).length = k := by
                rw [List.length_take]
                omega
              have htkne : rest.take k ≠ [] := by
                intro hcon
                rw [hcon] at htk
                simp at htk
                omega
              simp [headOrigNonempty, pieceOrig, List.isEmpty_iff, htkne]

/-- Helper: the loop body never consults the fuel as long as it exceeds
the remaining length, so `wrapLoop`'s fuel choice is canonical. -/
theorem wrapGo_fuel (L : Nat) (commaok addcr : Bool) :
    ∀ (f1 : Nat), ∀ (f2 : Nat) (rest : List Char), rest.length < f1 → rest.length < f2 →
      wrapGo L commaok addcr f1 rest = wrapGo L commaok addcr f2 rest := by
  intro f1
  induction f1 with
  | zero => intro f2 rest h1 _; omega
  | succ m ih =>
    intro f2 rest h1 h2
    cases f2 with
    | zero => omega
    | succ g =>
      rw [wrapGo, wrapGo]
      by_cases hb1 : rest.length ≤ L
      · rw [if_pos hb1, if_pos hb1]
      · by_cases hb2 : (rest.takeWhile (fun c => c ≠ '\n')).length ≤ L
        · rw [if_neg hb1, if_neg hb1, if_pos hb2, if_pos hb2]
          have hlen : ((rest.dropWhile (fun c => c ≠ '\n')).tail).length < rest.length := by
            have hdw : (rest.dropWhile (fun c => c ≠ '\n')).length ≤ rest.length :=
              (List.dropWhile_suffix _).length_le
            have ht := List.length_tail (rest.dropWhile (fun c => c ≠ '\n'))
            omega
          rw [ih g _ (by omega) (by omega)]
        · rw [if_neg hb1, if_neg hb1, if_neg hb2, if_neg hb2]
          cases hf : findWrap rest commaok L with
          | none => rfl
          | some k =>
            have hk := findWrap_bounds hf
            have hlen2 : (rest.drop k).length < rest.length := by
              rw [List.length_drop]
              omega
            dsimp only
            rw [ih g _ (by omega) (by omega)]

/-- Helper: a line whose first over-long segment has no safe boundary
within the width is the wrapper's fatal error. -/
theorem wrapLoop_no_boundary (L : Nat) (commaok addcr : Bool) (rest : List Char)
    (h1 : L < rest.length) (h2 : L < (rest.takeWhile (fun c => c ≠ '\n')).length)
    (h3 : findWrap rest commaok L = none) :
    wrapLoop L commaok addcr rest = .error wrapFault := by
  unfold wrapLoop
  rw [wrapGo, if_neg (by omega), if_neg (by omega), h3]

/-- C5 counterexample: the claim that every inserted break occurs
immediately after a safe boundary character is false — wrapping
`aaaaaaaa+bbbbbbbb` at width 10 breaks immediately before the `+`, so the
character immediately before the break is the letter a, not a safe
boundary. -/
theorem C5_counterexample :
    wrapLoop 10 false false ("aaaaaaaa+bbbbbbbb".toList) =
      .ok [Piece.wrapped ("aaaaaaaa".toList), Piece.fits ("+bbbbbbbb".toList) false] ∧
    breaksAfterSafe false
      [Piece.wrapped ("aaaaaaaa".toList), Piece.fits ("+bbbbbbbb".toList) false] = false := by
  exact ⟨rfl, rfl⟩

/-- C5 (amended): the line wrapper never splits inside a token — on
success the emitted segments partition the input exactly, and every
inserted break falls immediately before a whitespace character, an
operator character, or (only with the comma flag) a comma, that safe
character starting the continuation line; and when an over-long segment
has no safe boundary within the configured width, the wrapper aborts with
the fatal wrap error instead of splitting elsewhere. -/
theorem C5_wrap_boundaries (L : Nat) (commaok addcr : Bool) (line : List Char) :
    (∀ ps, wrapLoop L commaok addcr line = .ok ps →
      (ps.map pieceOrig).flatten = line ∧ breaksBeforeSafe commaok ps = true) ∧
    (L < line.length → L < (line.takeWhile (fun c => c ≠ '\n')).length →
      findWrap line commaok L = none →
      wrapLoop L commaok addcr line = .error wrapFault) := by
  constructor
  · intro ps h
    have := wrapGo_inv L commaok addcr (line.length + 1) line ps h
    exact ⟨this.1, this.2.1⟩
  · exact wrapLoop_no_boundary L commaok addcr line

/-- C5 witness: the amended theorem applied to a concrete wrapped line
and to a concrete line with no safe boundary. -/
theorem C5_wrap_boundaries_witness :
    (wrapLoop 10 false true ("aaaaaaaa+bbbbbbbb".toList) =
      .ok [Piece.wrapped ("aaaaaaaa".toList), Piece.fits ("+bbbbbbbb".toList) true] ∧
      (([Piece.wrapped ("aaaaaaaa".toList),
         Piece.fits ("+bbbbbbbb".toList) true].map pieceOrig).flatten =
        "aaaaaaaa+bbbbbbbb".toList ∧
       breaksBeforeSafe false
         [Piece.wrapped ("aaaaaaaa".toList), Piece.fits ("+bbbbbbbb".toList) true] = true)) ∧
    (5 < ("aaaaaaaaaa".toList).length ∧
     5 < (("aaaaaaaaaa".toList).takeWhile (fun c => c ≠ '\n')).length ∧
     findWrap ("aaaaaaaaaa".toList) false 5 = none ∧
     wrapLoop 5 false false ("aaaaaaaaaa".toList) = .error wrapFault) := by
  have hok : wrapLoop 10 false true ("aaaaaaaa+bbbbbbbb".toList) =
      .ok [Piece.wrapped ("aaaaaaaa".toList), Piece.fits ("+bbbbbbbb".toList) true] := rfl
  have hc1 : 5 < ("aaaaaaaaaa".toList).length := by decide
  have hc2 : 5 < (("aaaaaaaaaa".toList).takeWhile (fun c => c ≠ '\n')).length := by decide
  have hc3 : findWrap ("aaaaaaaaaa".toList) false 5 = none := by decide
  exact ⟨⟨hok, (C5_wrap_boundaries 10 false true ("aaaaaaaa+bbbbbbbb".toList)).1 _ hok⟩,
    ⟨hc1, hc2, hc3,
      (C5_wrap_boundaries 5 false false ("aaaaaaaaaa".toList)).2 hc1 hc2 hc3⟩⟩

end SymCore
